import Mathlib

/-!
Verification of the price-reconciliation and audit core of an OCR
procurement system.  The definitions are shallow embeddings of the
Python source (`ocr_engine.py` and `agent_tools.py`): rationals stand
for Python floats (all arithmetic in the source is exact decimal
arithmetic on the values of interest), `Option` models fallible
parsing, and structured inductive values model the formatted display
strings (which carry the same numeric data).
-/

namespace OCRProc

/-! ### Python `float(...)` on strings

`pyFloat` embeds Python's `float` applied to a string: surrounding
whitespace is stripped, an optional sign is read, then a mantissa of
digits with at most one decimal point (at least one digit), then an
optional exponent introduced by `e`/`E`.  The embedding omits the
`inf`/`nan` spellings and digit-group underscores, which never occur in
this pipeline's numeric fields. -/

/-- Python `abs`, written so that it evaluates by kernel reduction. -/
def rabs (x : ℚ) : ℚ := if x < 0 then -x else x

theorem rabs_eq_abs (x : ℚ) : rabs x = |x| := by
  unfold rabs
  split
  · next h => exact (abs_of_neg h).symm
  · next h => exact (abs_of_nonneg (le_of_not_lt h)).symm

def allDigits (cs : List Char) : Bool := cs.all Char.isDigit

def natVal (cs : List Char) : ℕ := cs.foldl (fun n c => 10 * n + (c.toNat - 48)) 0

/-- Split a character list at the first occurrence of `c`; `none` if absent. -/
def splitFirst (c : Char) : List Char → Option (List Char × List Char)
  | [] => none
  | x :: xs =>
      if x = c then some ([], xs)
      else (splitFirst c xs).map (fun p => (x :: p.1, p.2))

/-- Unsigned decimal mantissa: digits with at most one `.` and at least one digit. -/
def parseUnsignedDec (cs : List Char) : Option ℚ :=
  match splitFirst '.' cs with
  | none => if (!cs.isEmpty) && allDigits cs then some (natVal cs) else none
  | some (as, bs) =>
      if bs.contains '.' then none
      else if (!(as.isEmpty && bs.isEmpty)) && allDigits as && allDigits bs then
        some ((natVal as : ℚ) + (natVal bs : ℚ) / ((10 ^ bs.length : ℕ) : ℚ))
      else none

/-- Split mantissa from an optional exponent part at the first `e`/`E`. -/
def splitExp : List Char → List Char × Option (List Char)
  | [] => ([], none)
  | c :: rest =>
      if c = 'e' ∨ c = 'E' then ([], some rest)
      else
        let r := splitExp rest
        (c :: r.1, r.2)

/-- Exponent: optional sign then at least one digit. -/
def parseExp (cs : List Char) : Option ℤ :=
  match cs with
  | '+' :: ds => if (!ds.isEmpty) && allDigits ds then some ((natVal ds : ℤ)) else none
  | '-' :: ds => if (!ds.isEmpty) && allDigits ds then some (-(natVal ds : ℤ)) else none
  | ds => if (!ds.isEmpty) && allDigits ds then some ((natVal ds : ℤ)) else none

/-- `v * 10 ^ k` for an integer exponent `k`, via natural powers. -/
def mulPow10 (v : ℚ) (k : ℤ) : ℚ :=
  match k with
  | .ofNat n => v * ((10 ^ n : ℕ) : ℚ)
  | .negSucc n => v / ((10 ^ (n + 1) : ℕ) : ℚ)

def pyFloatAux (cs : List Char) : Option ℚ :=
  match parseUnsignedDec (splitExp cs).1, (splitExp cs).2 with
  | some v, none => some v
  | some v, some ecs =>
      match parseExp ecs with
      | some k => some (mulPow10 v k)
      | none => none
  | none, _ => none

def pyFloatSigned (cs : List Char) : Option ℚ :=
  match cs with
  | '+' :: rest => pyFloatAux rest
  | '-' :: rest => (pyFloatAux rest).map Neg.neg
  | _ => pyFloatAux cs

def trimWs (cs : List Char) : List Char :=
  ((cs.dropWhile Char.isWhitespace).reverse.dropWhile Char.isWhitespace).reverse

/-- Embedding of Python `float(s)` for a string given as a character list. -/
def pyFloat (cs : List Char) : Option ℚ := pyFloatSigned (trimWs cs)

/-! ### `clean_money` (ocr_engine.py, lines 65-74)

```python
def clean_money(value) -> str:
    if not value: return "0"
    s = str(value).upper().replace('O', '0').replace('L', '1').replace('I', '1')
    clean_val = re.sub(r'[^\d.]', '', s)
    try:
        float(clean_val)
        return clean_val
    except ValueError:
        return "0"
```

`upper()` and the regex class `\d` are Unicode-aware in Python; the
embedding uses the ASCII `Char.toUpper`/`Char.isDigit`, which agree on
the pipeline's inputs. -/

/-- The character substitutions applied after upper-casing. -/
def ocrFix (c : Char) : Char :=
  if c = 'O' then '0' else if c = 'L' then '1' else if c = 'I' then '1' else c

/-- The cleaned character list: upper-case, OCR-fix, keep only digits and dots. -/
def cleanChars (value : String) : List Char :=
  (value.toList.map (fun c => ocrFix c.toUpper)).filter (fun c => c.isDigit || c == '.')

def clean_money (value : String) : String :=
  if value = "" then "0"
  else
    match pyFloat (cleanChars value) with
    | some _ => String.mk (cleanChars value)
    | none => "0"

/-- `float(clean_money(s))` as a rational; the default `0` is never used
because `clean_money`'s output always parses (`clean_money_output_parses`). -/
def cleanMoneyVal (s : String) : ℚ := (pyFloat (clean_money s).toList).getD 0

/-- `float(clean_money(quantity)) if quantity else 0`, the quantity coercion
used by `validate_prices` and `allocate_prices_smart`. -/
def qtyVal (q : String) : ℚ := if q = "" then 0 else cleanMoneyVal q

theorem clean_money_output_parses (s : String) :
    (pyFloat (clean_money s).toList).isSome = true := by
  unfold clean_money
  split
  · decide
  · split
    · next q heq =>
        have h1 : (String.mk (cleanChars s)).toList = cleanChars s := rfl
        simp only [h1, heq, Option.isSome_some]
    · decide

/-! ### Python `round(x, 2)` (used for the final confidence)

Python rounds half to even; the binary-float artifacts of `round` on
`float` are immaterial here, so the embedding is exact decimal
round-half-to-even at two places. -/

def roundHalfEven (x : ℚ) : ℤ :=
  if x - (x.floor : ℚ) < 1/2 then x.floor
  else if 1/2 < x - (x.floor : ℚ) then x.floor + 1
  else if x.floor % 2 = 0 then x.floor else x.floor + 1

theorem ratFloor_eq_intFloor (x : ℚ) : x.floor = ⌊x⌋ := rfl

def pyRound2 (x : ℚ) : ℚ := ((roundHalfEven (x * 100) : ℤ) : ℚ) / 100

theorem roundHalfEven_nonneg (x : ℚ) (hx : 0 ≤ x) : 0 ≤ roundHalfEven x := by
  have hf : 0 ≤ ⌊x⌋ := Int.floor_nonneg.mpr hx
  unfold roundHalfEven
  rw [ratFloor_eq_intFloor]
  split
  · exact hf
  · split
    · omega
    · split
      · exact hf
      · omega

theorem roundHalfEven_le (x : ℚ) (n : ℤ) (hx : x ≤ (n : ℚ)) : roundHalfEven x ≤ n := by
  have hf : ⌊x⌋ ≤ n := by
    have := Int.floor_le_floor hx
    simpa using this
  have hsucc : ¬ x - (⌊x⌋ : ℚ) ≤ 0 → ⌊x⌋ + 1 ≤ n := by
    intro hpos
    rcases lt_or_eq_of_le hf with h | h
    · omega
    · exfalso
      apply hpos
      rw [h]
      linarith
  unfold roundHalfEven
  rw [ratFloor_eq_intFloor]
  split
  · exact hf
  · next h1 =>
      split
      · next h2 =>
          exact hsucc (by intro h0; exact absurd (by linarith : x - (⌊x⌋ : ℚ) < 1/2) h1)
      · split
        · exact hf
        · next h2 h3 =>
            exact hsucc (by intro h0; exact absurd (by linarith : x - (⌊x⌋ : ℚ) < 1/2) h1)

theorem pyRound2_bounds (x : ℚ) (h0 : 0 ≤ x) (h1 : x ≤ 1) :
    0 ≤ pyRound2 x ∧ pyRound2 x ≤ 1 := by
  have hlo : 0 ≤ roundHalfEven (x * 100) := roundHalfEven_nonneg _ (by linarith)
  have hhi : roundHalfEven (x * 100) ≤ 100 := roundHalfEven_le _ 100 (by push_cast; linarith)
  have hlo' : (0 : ℚ) ≤ (roundHalfEven (x * 100) : ℚ) := by exact_mod_cast hlo
  have hhi' : ((roundHalfEven (x * 100) : ℤ) : ℚ) ≤ 100 := by exact_mod_cast hhi
  constructor
  · unfold pyRound2; positivity
  · unfold pyRound2
    rw [div_le_one (by norm_num)]
    exact hhi'

/-! ### Pass B: `perform_math_check` (agent_tools.py, lines 39-85)

The traffic-light verdict strings (`"⚪ 待確認"` etc.) and the formatted
messages are modelled structurally: `Verdict` is the four-way status and
`AuditMsg` carries exactly the numeric data interpolated into each
f-string of the source. -/

inductive Verdict where
  | indeterminate
  | pass
  | warn
  | fail
deriving DecidableEq

inductive AuditMsg where
  | zeroBlank
  | perfect
  | tolerable (diff : ℚ)
  | mismatch (amount calcAmount diff : ℚ)
deriving DecidableEq

/-- Default `tolerance` argument of `perform_math_check`. -/
def defaultTolerance : ℚ := 5

/-- The verdict cascade of `perform_math_check` for one item, applied to
the already-cleaned numeric quantity, unit price and amount. -/
def mathCheck (qty price amount tol : ℚ) : Verdict × AuditMsg :=
  if amount = 0 ∧ qty * price = 0 then (.indeterminate, .zeroBlank)
  else if rabs (amount - qty * price) < 1/100 then (.pass, .perfect)
  else if rabs (amount - qty * price) ≤ tol then (.warn, .tolerable (rabs (amount - qty * price)))
  else (.fail, .mismatch amount (qty * price) (rabs (amount - qty * price)))

/-- A Python dict value in this pipeline: a string, a number, or one of
the two structured audit values written by Pass B. -/
inductive PyVal where
  | str (s : String)
  | num (q : ℚ)
  | status (v : Verdict)
  | audit (m : AuditMsg)
deriving DecidableEq

/-- `clean_num` (agent_tools.py, lines 24-36): falsy values give `0.0`,
numbers pass through, strings are stripped of `","`, `"$"`, `" "` and
parsed, with `0.0` on failure.  The two structured audit values render
as non-numeric strings, so `float` on them fails and yields `0`. -/
def clean_num : Option PyVal → ℚ
  | none => 0
  | some (.num q) => q
  | some (.str s) =>
      if s = "" then 0
      else (pyFloat (s.toList.filter (fun c => !(c == ',' || c == '$' || c == ' ')))).getD 0
  | some (.status _) => 0
  | some (.audit _) => 0

/-- An item record, modelling a Python dict as a key-ordered association list. -/
abbrev Item := List (String × PyVal)

/-- `item.get(k)`. -/
def getVal (k : String) : Item → Option PyVal
  | [] => none
  | (k1, v) :: rest => if k1 = k then some v else getVal k rest

/-- `item[k] = v`: overwrite the existing binding, or append a new one. -/
def setKey (k : String) (v : PyVal) : Item → Item
  | [] => [(k, v)]
  | (k1, v1) :: rest => if k1 = k then (k, v) :: rest else (k1, v1) :: setKey k v rest

/-- One iteration of the `perform_math_check` loop body on a single item. -/
def perform_math_check_item (tol : ℚ) (item : Item) : Item :=
  setKey "_稽核訊息"
    (.audit (mathCheck (clean_num (getVal "採購數" item)) (clean_num (getVal "單價" item))
        (clean_num (getVal "金額" item)) tol).2)
    (setKey "_稽核狀態"
      (.status (mathCheck (clean_num (getVal "採購數" item)) (clean_num (getVal "單價" item))
          (clean_num (getVal "金額" item)) tol).1)
      (setKey "金額" (.num (clean_num (getVal "金額" item)))
        (setKey "單價" (.num (clean_num (getVal "單價" item)))
          (setKey "採購數" (.num (clean_num (getVal "採購數" item))) item))))

def perform_math_check (tol : ℚ) (items : List Item) : List Item :=
  items.map (perform_math_check_item tol)

/-! ### Pass A: `validate_prices` (ocr_engine.py, lines 77-107)

Warnings are modelled structurally, carrying the numbers interpolated
into the source's f-strings. -/

inductive VWarning where
  | formatError
  | amountMismatch (amount unitPrice qty : ℚ)
  | unitPriceMismatch (unitPrice listPrice discount : ℚ)
deriving DecidableEq

structure VResult where
  is_valid : Bool
  warnings : List VWarning
  confidence : ℚ
deriving DecidableEq

/-- The condition of the first consistency check (relative amount error
beyond `PRICE_ERROR_TOLERANCE = 0.05`). -/
def amountBad (unit_price amount qty : ℚ) : Bool :=
  decide (0 < unit_price) && decide (0 < qty) && decide (0 < amount) &&
    decide ((1 : ℚ)/20 < rabs (amount - unit_price * qty) / (unit_price * qty))

/-- The discount rate: percentages above 1 are divided by 100. -/
def discountRate (discount_val : ℚ) : ℚ :=
  if 1 < discount_val then discount_val / 100 else discount_val

/-- The condition of the second consistency check (unit price vs
list price times discount). -/
def unitBad (list_price discount_val unit_price : ℚ) : Bool :=
  decide (0 < list_price) && decide (0 < discount_val) && decide (0 < unit_price) &&
    decide (0 < list_price * discountRate discount_val) &&
    decide ((1 : ℚ)/20 <
      rabs (unit_price - list_price * discountRate discount_val) /
        (list_price * discountRate discount_val))

/-- The body of `validate_prices` after the five fields parsed. -/
def validateCore (list_price discount_val unit_price amount qty : ℚ) : VResult :=
  ⟨((if amountBad unit_price amount qty then
        [VWarning.amountMismatch amount unit_price qty] else []) ++
      (if unitBad list_price discount_val unit_price then
        [VWarning.unitPriceMismatch unit_price list_price discount_val] else [])).isEmpty,
    (if amountBad unit_price amount qty then
        [VWarning.amountMismatch amount unit_price qty] else []) ++
      (if unitBad list_price discount_val unit_price then
        [VWarning.unitPriceMismatch unit_price list_price discount_val] else []),
    max 0 (min 1 (1 - (if amountBad unit_price amount qty then (3 : ℚ)/10 else 0) -
      (if unitBad list_price discount_val unit_price then (1 : ℚ)/5 else 0)))⟩

/-- `float(prices_dict.get(key) or 0)`: the empty string is falsy and
coerces to `0`; otherwise Python's `float` parse, `none` on failure. -/
def parseField (s : String) : Option ℚ :=
  if s = "" then some 0 else pyFloat s.toList

/-- `validate_prices`: any parse failure among the four price fields is
caught and yields the invalid zero-confidence result.  The quantity is
coerced through `clean_money`, whose output always parses. -/
def validate_prices (lp dv up am qty : String) : VResult :=
  match parseField lp, parseField dv, parseField up, parseField am with
  | some l, some d, some u, some a => validateCore l d u a (qtyVal qty)
  | _, _, _, _ => ⟨false, [.formatError], 0⟩

/-- The final `_confidence` of an item (ocr_engine.py, lines 357-359):
the Pass A confidence, minus `FALLBACK_CONFIDENCE_PENALTY = 0.2` when
fallback allocation was used, clamped below at `0` and rounded to two
decimals. -/
def item_confidence (lp dv up am qty : String) (used_fallback : Bool) : ℚ :=
  pyRound2 (max 0 ((validate_prices lp dv up am qty).confidence -
    (if used_fallback then (1 : ℚ)/5 else 0)))

/-! ### Fallback allocation: `allocate_prices_smart` (ocr_engine.py, lines 110-170)

Python semantics captured here: `min(xs, key=f)` / `max(xs, key=f)`
return the first optimum (later elements replace the current best only
when strictly better), and `prices.index(max(prices))` is the first
index holding the maximal value, i.e. the first pair of `enumerate`
with maximal second component.  The source recomputes
`remaining = [(i, p) for i, p in enumerate(prices) if i not in used]`
after each selection with a growing `used` set; filtering the previous
remainder by the one new index yields the same list. -/

/-- Python `min(pairs, key manner)` over `(index, value)` pairs: the first
pair whose value minimises `key`. -/
def firstMinBy (key : ℚ → ℚ) : List (ℕ × ℚ) → Option (ℕ × ℚ)
  | [] => none
  | p :: ps =>
      match firstMinBy key ps with
      | none => some p
      | some q => if key q.2 < key p.2 then some q else some p

/-- Python `max(pairs, key manner)`: the first pair whose value maximises
`key`; later elements win only on a strict increase, which is exactly
`firstMinBy` of the negated key. -/
def firstMaxBy (key : ℚ → ℚ) (ps : List (ℕ × ℚ)) : Option (ℕ × ℚ) :=
  firstMinBy (fun v => -key v) ps

/-- Value-level variant of `firstMinBy`, used to phrase the spec's
description of the allocation. -/
def firstMinValBy (key : ℚ → ℚ) : List ℚ → Option ℚ
  | [] => none
  | v :: vs =>
      match firstMinValBy key vs with
      | none => some v
      | some w => if key w < key v then some w else some v

def firstMaxValBy (key : ℚ → ℚ) (l : List ℚ) : Option ℚ :=
  firstMinValBy (fun v => -key v) l

/-- Remove the first occurrence of a value. -/
def eraseFirst (v : ℚ) : List ℚ → List ℚ
  | [] => []
  | x :: xs => if x = v then xs else x :: eraseFirst v xs

/-- The allocation result dict `{"牌價", "折數%", "單價", "金額"}`; the
empty string stands for `none`, `str(x)` for `some x`.  Fields in order:
list price, discount, unit price, amount. -/
structure Alloc where
  listPrice : Option ℚ
  discount : Option ℚ
  unitPrice : Option ℚ
  amount : Option ℚ
deriving DecidableEq

def emptyAlloc : Alloc := ⟨none, none, none, none⟩

/-- The unit-price selection key: for positive quantity, closeness to
`amount / quantity` (Python `min(remaining, key=lambda x: abs(x[1] - amount/qty))`);
otherwise the largest value (Python `max(remaining, key=lambda x: x[1])`,
i.e. `firstMinBy` of the negated value). -/
def unitKey (amv qty : ℚ) : ℚ → ℚ :=
  if 0 < qty then fun v => rabs (v - amv / qty) else fun v => -v

/-- The `len(prices) >= 4` branch after the amount has been chosen:
`r1` is the pairs whose index is unused. -/
def alloc4Tail (r1 : List (ℕ × ℚ)) (key : ℚ → ℚ) (amv : ℚ) : Alloc :=
  match firstMinBy key r1 with
  | none => emptyAlloc
  | some un =>
      match firstMinBy id (r1.filter (fun p => p.1 != un.1)) with
      | none => ⟨none, none, some un.2, some amv⟩
      | some di =>
          ⟨(((r1.filter (fun p => p.1 != un.1)).filter (fun p => p.1 != di.1)).head?).map
              Prod.snd,
            some di.2, some un.2, some amv⟩

/-- The `len(prices) >= 4` branch.  `amount` is the first pair with the
maximal value (`prices.index(max(prices))`); each later selection works
on the pairs whose index is not yet used. -/
def alloc4 (prices : List ℚ) (qty : ℚ) : Alloc :=
  match firstMaxBy id prices.enum with
  | none => emptyAlloc
  | some am =>
      alloc4Tail (prices.enum.filter (fun p => p.1 != am.1)) (unitKey am.2 qty) am.2

/-- The `len(prices) == 3` branch after the amount has been chosen.  The
source indexes `remaining[0]` unguarded; the `none` guard here is
unreachable for three tokens. -/
def alloc3Tail (r1 : List (ℕ × ℚ)) (key : ℚ → ℚ) (amv : ℚ) : Alloc :=
  match firstMinBy key r1 with
  | none => emptyAlloc
  | some un =>
      match (r1.filter (fun p => p.1 != un.1)).head? with
      | none => emptyAlloc
      | some la =>
          if la.2 < un.2 ∧ la.2 < 150 then ⟨none, some la.2, some un.2, some amv⟩
          else ⟨some la.2, none, some un.2, some amv⟩

/-- The `len(prices) == 3` branch. -/
def alloc3 (prices : List ℚ) (qty : ℚ) : Alloc :=
  match firstMaxBy id prices.enum with
  | none => emptyAlloc
  | some am =>
      alloc3Tail (prices.enum.filter (fun p => p.1 != am.1)) (unitKey am.2 qty) am.2

/-- The `len(prices) == 2` branch: `min(prices)` and `max(prices)`. -/
def alloc2 (prices : List ℚ) : Alloc :=
  match firstMinValBy id prices, firstMaxValBy id prices with
  | some mn, some mx => ⟨none, none, some mn, some mx⟩
  | _, _ => emptyAlloc

/-- The branch cascade of `allocate_prices_smart` on the parsed nonzero
price tokens. -/
def allocateCore (prices : List ℚ) (qty : ℚ) : Alloc :=
  if 4 ≤ prices.length then alloc4 prices qty
  else if prices.length = 3 then alloc3 prices qty
  else if prices.length = 2 then alloc2 prices
  else emptyAlloc

/-- Python `raw.split()`: split on whitespace runs, dropping empty pieces. -/
def tokenizeAux : List Char → List Char → List String
  | [], acc => if acc.isEmpty then [] else [String.mk acc.reverse]
  | c :: cs, acc =>
      if c.isWhitespace then
        if acc.isEmpty then tokenizeAux cs [] else String.mk acc.reverse :: tokenizeAux cs []
      else tokenizeAux cs (c :: acc)

def tokenize (s : String) : List String := tokenizeAux s.toList []

/-- `[float(p) for p in price_list]` under `try`: the whole list, or
`none` as soon as one token fails to parse. -/
def parseAll : List String → Option (List ℚ)
  | [] => some []
  | t :: ts =>
      match pyFloat t.toList, parseAll ts with
      | some q, some qs => some (q :: qs)
      | _, _ => none

def allocate_prices_smart (raw_prices_str quantity : String) : Alloc :=
  if ((tokenize raw_prices_str).map clean_money).filter (fun t => t ≠ "0") = [] then emptyAlloc
  else
    match parseAll (((tokenize raw_prices_str).map clean_money).filter (fun t => t ≠ "0")) with
    | none => emptyAlloc
    | some prices => allocateCore prices (qtyVal quantity)

/-! ### The claim-side description of the allocation, phrased on values

`spec4`/`spec3` follow the specification text: take the maximal token as
amount, remove it (first occurrence), pick the unit price among the
remaining values, remove it, and so on. -/

/-- The value-level description of the `>= 4` tail: choose the unit
price among the remaining values, remove it (first occurrence), then
the smallest remaining value as discount, remove it, and the first
leftover value (original order) as list price. -/
def spec4Tail (r1v : List ℚ) (key : ℚ → ℚ) (a : ℚ) : Alloc :=
  match firstMinValBy key r1v with
  | none => emptyAlloc
  | some u =>
      match firstMinValBy id (eraseFirst u r1v) with
      | none => ⟨none, none, some u, some a⟩
      | some d => ⟨(eraseFirst d (eraseFirst u r1v)).head?, some d, some u, some a⟩

def spec4 (prices : List ℚ) (qty : ℚ) : Alloc :=
  match firstMaxValBy id prices with
  | none => emptyAlloc
  | some a => spec4Tail (eraseFirst a prices) (unitKey a qty) a

/-- The value-level description of the `== 3` tail: the last leftover
value becomes the discount exactly when it is below the chosen unit
price and below 150, and the list price otherwise. -/
def spec3Tail (r1v : List ℚ) (key : ℚ → ℚ) (a : ℚ) : Alloc :=
  match firstMinValBy key r1v with
  | none => emptyAlloc
  | some u =>
      match (eraseFirst u r1v).head? with
      | none => emptyAlloc
      | some last =>
          if last < u ∧ last < 150 then ⟨none, some last, some u, some a⟩
          else ⟨some last, none, some u, some a⟩

def spec3 (prices : List ℚ) (qty : ℚ) : Alloc :=
  match firstMaxValBy id prices with
  | none => emptyAlloc
  | some a => spec3Tail (eraseFirst a prices) (unitKey a qty) a

/-! ### Equivalence of the pair-index implementation with the value-level
description -/

theorem firstMinBy_eq_none (key : ℚ → ℚ) (ps : List (ℕ × ℚ)) :
    firstMinBy key ps = none ↔ ps = [] := by
  cases ps with
  | nil => simp [firstMinBy]
  | cons p ps =>
      constructor
      · intro h
        exfalso
        cases h2 : firstMinBy key ps with
        | none => simp [firstMinBy, h2] at h
        | some q =>
            simp only [firstMinBy, h2] at h
            by_cases hk : key q.2 < key p.2 <;> simp [hk] at h
      · intro h
        exact absurd h (List.cons_ne_nil p ps)

theorem firstMinBy_mem (key : ℚ → ℚ) :
    ∀ (ps : List (ℕ × ℚ)) (q : ℕ × ℚ), firstMinBy key ps = some q → q ∈ ps := by
  intro ps
  induction ps with
  | nil => intro q h; simp [firstMinBy] at h
  | cons p ps ih =>
      intro q h
      cases h2 : firstMinBy key ps with
      | none =>
          simp only [firstMinBy, h2] at h
          exact (Option.some.inj h) ▸ List.mem_cons_self p ps
      | some r =>
          simp only [firstMinBy, h2] at h
          by_cases hk : key r.2 < key p.2
          · rw [if_pos hk] at h
            exact List.mem_cons_of_mem p (ih q (h2.trans (congrArg some (Option.some.inj h))))
          · rw [if_neg hk] at h
            exact (Option.some.inj h) ▸ List.mem_cons_self p ps

theorem firstMinBy_map_snd (key : ℚ → ℚ) (ps : List (ℕ × ℚ)) :
    (firstMinBy key ps).map Prod.snd = firstMinValBy key (ps.map Prod.snd) := by
  induction ps with
  | nil => rfl
  | cons p ps ih =>
      simp only [firstMinBy, List.map_cons, firstMinValBy]
      cases h : firstMinBy key ps with
      | none =>
          rw [h] at ih
          simp only [Option.map_none'] at ih
          rw [← ih]
          rfl
      | some q =>
          rw [h] at ih
          simp only [Option.map_some'] at ih
          rw [← ih]
          by_cases hk : key q.2 < key p.2 <;> simp [hk]


theorem firstMaxBy_map_snd (key : ℚ → ℚ) (ps : List (ℕ × ℚ)) :
    (firstMaxBy key ps).map Prod.snd = firstMaxValBy key (ps.map Prod.snd) :=
  firstMinBy_map_snd _ _

theorem nodup_fst_filter (pred : ℕ × ℚ → Bool) (ps : List (ℕ × ℚ))
    (hn : (ps.map Prod.fst).Nodup) : ((ps.filter pred).map Prod.fst).Nodup :=
  List.Nodup.sublist (List.Sublist.map Prod.fst (List.filter_sublist ps)) hn

theorem enum_fst_nodup (l : List ℚ) : (l.enum.map Prod.fst).Nodup := by
  rw [List.enum_map_fst]
  exact List.nodup_range _

/-- Removing the index chosen by `firstMinBy` from a list of pairs with
distinct indices is, on values, removing the first occurrence of the
chosen value: an earlier equal value would have an equal key and would
have been chosen instead. -/
theorem filter_map_snd_eq_eraseFirst (key : ℚ → ℚ) :
    ∀ (ps : List (ℕ × ℚ)) (q : ℕ × ℚ), (ps.map Prod.fst).Nodup →
      firstMinBy key ps = some q →
      (ps.filter (fun p => p.1 != q.1)).map Prod.snd = eraseFirst q.2 (ps.map Prod.snd) := by
  intro ps
  induction ps with
  | nil => intro q _ h; simp [firstMinBy] at h
  | cons p ps ih =>
      intro q hn h
      have hn1 : (ps.map Prod.fst).Nodup := (List.nodup_cons.mp hn).2
      have hp1 : p.1 ∉ ps.map Prod.fst := (List.nodup_cons.mp hn).1
      have hfilter_self : ps.filter (fun x => x.1 != p.1) = ps := by
        apply List.filter_eq_self.mpr
        intro a ha
        simp only [bne_iff_ne, ne_eq, decide_eq_true_eq]
        intro e
        exact hp1 (e ▸ List.mem_map_of_mem Prod.fst ha)
      cases h2 : firstMinBy key ps with
      | none =>
          simp only [firstMinBy, h2] at h
          have hq : p = q := Option.some.inj h
          have hps : ps = [] := (firstMinBy_eq_none key ps).mp h2
          subst hps
          rw [← hq]
          simp [eraseFirst, List.filter]
      | some r =>
          simp only [firstMinBy, h2] at h
          by_cases hk : key r.2 < key p.2
          · rw [if_pos hk] at h
            have hq : r = q := Option.some.inj h
            subst hq
            have hmem : r ∈ ps := firstMinBy_mem key ps r h2
            have hi : r.1 ∈ ps.map Prod.fst := List.mem_map_of_mem Prod.fst hmem
            have hne : p.1 ≠ r.1 := fun e => hp1 (e ▸ hi)
            have hv : p.2 ≠ r.2 := fun e => absurd hk (by rw [← e]; exact lt_irrefl _)
            rw [List.filter_cons, List.map_cons, if_pos (by simpa using hne)]
            rw [List.map_cons, eraseFirst, if_neg (fun e => hv e)]
            rw [ih r hn1 h2]
          · rw [if_neg hk] at h
            have hq : p = q := Option.some.inj h
            rw [← hq]
            rw [List.filter_cons, List.map_cons]
            rw [if_neg (by simp)]
            rw [eraseFirst, if_pos rfl]
            rw [hfilter_self]

theorem alloc4Tail_eq (r1 : List (ℕ × ℚ)) (key : ℚ → ℚ) (amv : ℚ)
    (hnd : (r1.map Prod.fst).Nodup) :
    alloc4Tail r1 key amv = spec4Tail (r1.map Prod.snd) key amv := by
  unfold alloc4Tail spec4Tail
  cases hU : firstMinBy key r1 with
  | none =>
      have h := firstMinBy_map_snd key r1
      rw [hU] at h
      simp only [Option.map_none'] at h
      rw [← h]
  | some un =>
      have h := firstMinBy_map_snd key r1
      rw [hU] at h
      simp only [Option.map_some'] at h
      simp only [← h]
      have hr2 := filter_map_snd_eq_eraseFirst key r1 un hnd hU
      cases hD : firstMinBy id (r1.filter (fun p => p.1 != un.1)) with
      | none =>
          have h2 := firstMinBy_map_snd id (r1.filter (fun p => p.1 != un.1))
          rw [hD, hr2] at h2
          simp only [Option.map_none'] at h2
          simp only [← h2]
      | some di =>
          have h2 := firstMinBy_map_snd id (r1.filter (fun p => p.1 != un.1))
          rw [hD, hr2] at h2
          simp only [Option.map_some'] at h2
          simp only [← h2]
          have hr3 := filter_map_snd_eq_eraseFirst id (r1.filter (fun p => p.1 != un.1)) di
            (nodup_fst_filter _ _ hnd) hD
          rw [hr2] at hr3
          rw [← List.head?_map, hr3]

theorem alloc3Tail_eq (r1 : List (ℕ × ℚ)) (key : ℚ → ℚ) (amv : ℚ)
    (hnd : (r1.map Prod.fst).Nodup) :
    alloc3Tail r1 key amv = spec3Tail (r1.map Prod.snd) key amv := by
  unfold alloc3Tail spec3Tail
  cases hU : firstMinBy key r1 with
  | none =>
      have h := firstMinBy_map_snd key r1
      rw [hU] at h
      simp only [Option.map_none'] at h
      rw [← h]
  | some un =>
      have h := firstMinBy_map_snd key r1
      rw [hU] at h
      simp only [Option.map_some'] at h
      simp only [← h]
      have hr2 := filter_map_snd_eq_eraseFirst key r1 un hnd hU
      rw [← hr2, List.head?_map]
      cases hH : ((r1.filter (fun p => p.1 != un.1)).head?) with
      | none => rfl
      | some la => simp

theorem alloc4_eq_spec4 (prices : List ℚ) (qty : ℚ) :
    alloc4 prices qty = spec4 prices qty := by
  unfold alloc4 spec4
  cases hA : firstMaxBy id prices.enum with
  | none =>
      have h := firstMaxBy_map_snd id prices.enum
      rw [hA, List.enum_map_snd] at h
      simp only [Option.map_none'] at h
      simp only [← h]
  | some am =>
      have h := firstMaxBy_map_snd id prices.enum
      rw [hA, List.enum_map_snd] at h
      simp only [Option.map_some'] at h
      simp only [← h]
      have hr1 := filter_map_snd_eq_eraseFirst (fun v => -id v) prices.enum am
        (enum_fst_nodup prices) hA
      rw [List.enum_map_snd] at hr1
      rw [← hr1]
      exact alloc4Tail_eq _ _ _ (nodup_fst_filter _ _ (enum_fst_nodup prices))

theorem allocateCore_ge4 (prices : List ℚ) (qty : ℚ) (h : 4 ≤ prices.length) :
    allocateCore prices qty = alloc4 prices qty := by
  unfold allocateCore
  rw [if_pos h]

theorem allocateCore_eq3 (prices : List ℚ) (qty : ℚ) (h : prices.length = 3) :
    allocateCore prices qty = alloc3 prices qty := by
  unfold allocateCore
  rw [if_neg (by omega), if_pos h]

theorem allocateCore_singleton (v : ℚ) (qty : ℚ) : allocateCore [v] qty = emptyAlloc := by
  unfold allocateCore
  norm_num

theorem alloc3_eq_spec3 (prices : List ℚ) (qty : ℚ) :
    alloc3 prices qty = spec3 prices qty := by
  unfold alloc3 spec3
  cases hA : firstMaxBy id prices.enum with
  | none =>
      have h := firstMaxBy_map_snd id prices.enum
      rw [hA, List.enum_map_snd] at h
      simp only [Option.map_none'] at h
      simp only [← h]
  | some am =>
      have h := firstMaxBy_map_snd id prices.enum
      rw [hA, List.enum_map_snd] at h
      simp only [Option.map_some'] at h
      simp only [← h]
      have hr1 := filter_map_snd_eq_eraseFirst (fun v => -id v) prices.enum am
        (enum_fst_nodup prices) hA
      rw [List.enum_map_snd] at hr1
      rw [← hr1]
      exact alloc3Tail_eq _ _ _ (nodup_fst_filter _ _ (enum_fst_nodup prices))

/-! ### Dict-update lemmas for Pass B's frame property -/

theorem getVal_setKey_same (k : String) (v : PyVal) :
    ∀ item : Item, getVal k (setKey k v item) = some v := by
  intro item
  induction item with
  | nil => simp [setKey, getVal]
  | cons p rest ih =>
      obtain ⟨k1, v1⟩ := p
      by_cases h : k1 = k
      · simp [setKey, h, getVal]
      · simp [setKey, h, getVal, ih]

theorem getVal_setKey_ne (k k1 : String) (v : PyVal) (h : k1 ≠ k) :
    ∀ item : Item, getVal k (setKey k1 v item) = getVal k item := by
  intro item
  induction item with
  | nil => simp [setKey, getVal, h]
  | cons p rest ih =>
      obtain ⟨k2, v2⟩ := p
      by_cases h2 : k2 = k1
      · subst h2
        simp [setKey, getVal, h]
      · by_cases h3 : k2 = k
        · simp [setKey, h2, getVal, h3, Ne.symm h]
        · simp [setKey, h2, getVal, h3, ih]

/-! ### Confidence bounds -/

theorem validateCore_confidence_mem (l d u a q : ℚ) :
    0 ≤ (validateCore l d u a q).confidence ∧ (validateCore l d u a q).confidence ≤ 1 := by
  unfold validateCore
  refine ⟨le_max_left 0 _, ?_⟩
  apply max_le (by norm_num)
  exact min_le_left 1 _

theorem validate_prices_confidence_mem (lp dv up am qty : String) :
    0 ≤ (validate_prices lp dv up am qty).confidence ∧
      (validate_prices lp dv up am qty).confidence ≤ 1 := by
  unfold validate_prices
  cases parseField lp <;> cases parseField dv <;> cases parseField up <;> cases parseField am <;>
    first
      | exact ⟨le_refl 0, by norm_num⟩
      | exact validateCore_confidence_mem _ _ _ _ _

/-- The Pass A confidence takes one of four values: `1`, `0.7`, `0.8`,
or `0.5`, according to which of the two deductions fire. -/
theorem validateCore_confidence_cases (l d u a q : ℚ) :
    (validateCore l d u a q).confidence = 1 ∨ (validateCore l d u a q).confidence = 7/10 ∨
      (validateCore l d u a q).confidence = 4/5 ∨
      (validateCore l d u a q).confidence = 1/2 := by
  unfold validateCore
  by_cases h1 : amountBad u a q = true <;> by_cases h2 : unitBad l d u = true <;>
    simp [h1, h2] <;> norm_num [max_def, min_def]

/-! ### The claims -/

/-- Claim C1: for every line item processed by Pass B, with
`expected = quantity * unitPrice` and `diff = |amount - expected|`, the
verdict is decided by the first matching rule in order: amount and
expected both zero gives Indeterminate; `diff < 0.01` gives Pass;
`diff <= tolerance` (default 5.0) gives Warning with the numeric
difference in the message; otherwise Failure with both the recorded and
the calculated amount in the message. -/
theorem math_check_verdict_rules (qty price amount tol : ℚ) :
    (amount = 0 ∧ qty * price = 0 →
      mathCheck qty price amount tol = (.indeterminate, .zeroBlank)) ∧
    (¬(amount = 0 ∧ qty * price = 0) → |amount - qty * price| < 1/100 →
      mathCheck qty price amount tol = (.pass, .perfect)) ∧
    (¬(amount = 0 ∧ qty * price = 0) → ¬(|amount - qty * price| < 1/100) →
      |amount - qty * price| ≤ tol →
      mathCheck qty price amount tol = (.warn, .tolerable |amount - qty * price|)) ∧
    (¬(amount = 0 ∧ qty * price = 0) → ¬(|amount - qty * price| < 1/100) →
      ¬(|amount - qty * price| ≤ tol) →
      mathCheck qty price amount tol =
        (.fail, .mismatch amount (qty * price) |amount - qty * price|)) ∧
    defaultTolerance = 5 := by
  unfold mathCheck
  rw [← rabs_eq_abs]
  refine ⟨fun h => ?_, fun h1 h2 => ?_, fun h1 h2 h3 => ?_, fun h1 h2 h3 => ?_, rfl⟩
  · rw [if_pos h]
  · rw [if_neg h1, if_pos h2]
  · rw [if_neg h1, if_neg h2, if_pos h3]
  · rw [if_neg h1, if_neg h2, if_neg h3]

theorem math_check_verdict_rules_witness :
    mathCheck 1 10 12 5 = (.warn, .tolerable |(12 : ℚ) - 1 * 10|) := by
  have habs : |(12 : ℚ) - 1 * 10| = 2 := by
    rw [show (12 : ℚ) - 1 * 10 = 2 by norm_num]
    exact abs_of_nonneg (by norm_num)
  exact (math_check_verdict_rules 1 10 12 5).2.2.1 (by norm_num)
    (by rw [habs]; norm_num) (by rw [habs]; norm_num)

/-- Claim C2: with at least four nonzero tokens, the allocation matches
the value-level description `spec4` (amount is the maximal token;
unit price minimises the distance to amount/quantity when quantity is
positive, else is the largest remaining; discount is the smallest token
still remaining; list price is the first leftover in original order;
ties by first occurrence, no token used twice), and the concrete
instance `[250, 80, 200, 8000]` with quantity `40` gives
amount 8000, unit price 200, discount 80, list price 250. -/
theorem allocation_ge4_matches_description :
    (∀ (prices : List ℚ) (qty : ℚ), 4 ≤ prices.length →
      allocateCore prices qty = spec4 prices qty) ∧
    allocateCore [250, 80, 200, 8000] 40 =
      ⟨some 250, some 80, some 200, some 8000⟩ := by
  constructor
  · intro prices qty h
    rw [allocateCore_ge4 prices qty h]
    exact alloc4_eq_spec4 prices qty
  · norm_num [allocateCore, alloc4, alloc4Tail, unitKey, firstMaxBy, firstMinBy, rabs,
      List.enum, List.enumFrom, emptyAlloc]

theorem allocation_ge4_matches_description_witness :
    allocateCore [1, 2, 3, 4] 2 = spec4 [1, 2, 3, 4] 2 :=
  allocation_ge4_matches_description.1 [1, 2, 3, 4] 2 (by decide)

/-- Claim C3: with exactly three nonzero tokens, the allocation matches
the value-level description `spec3`: amount is the maximal token; unit
price minimises the distance to amount/quantity when quantity is
positive, else is the larger remaining token; the last leftover token
becomes the discount exactly when it is smaller than the chosen unit
price and strictly below 150, and the list price otherwise. -/
theorem allocation_three_tokens_matches_description (prices : List ℚ) (qty : ℚ)
    (h : prices.length = 3) : allocateCore prices qty = spec3 prices qty := by
  rw [allocateCore_eq3 prices qty h]
  exact alloc3_eq_spec3 prices qty

theorem allocation_three_tokens_matches_description_witness :
    allocateCore [100, 80, 8000] 40 = spec3 [100, 80, 8000] 40 :=
  allocation_three_tokens_matches_description [100, 80, 8000] 40 (by decide)

/-- Claim C4: when any one of the five parsed fields fails to parse as a
number, Pass A returns invalid with confidence `0`, only the
format-error message, and no further consistency checks (the quantity
disjunct is vacuous in the code since quantity is coerced through
`clean_money`, whose output always parses); the failure is a returned
value, never an exception. -/
theorem validate_prices_format_error (lp dv up am qty : String)
    (h : parseField lp = none ∨ parseField dv = none ∨ parseField up = none ∨
      parseField am = none ∨ pyFloat (clean_money qty).toList = none) :
    validate_prices lp dv up am qty = ⟨false, [.formatError], 0⟩ := by
  have hq := clean_money_output_parses qty
  cases e1 : parseField lp <;> cases e2 : parseField dv <;> cases e3 : parseField up <;>
    cases e4 : parseField am <;> simp_all [validate_prices]

theorem validate_prices_format_error_witness :
    validate_prices "1" "2" "3" "abc" "4" = ⟨false, [.formatError], 0⟩ :=
  validate_prices_format_error "1" "2" "3" "abc" "4"
    (Or.inr (Or.inr (Or.inr (Or.inl (by decide)))))

/-- Claim C5: for all inputs (any field strings, any quantity, fallback
used or not), the final `_confidence` written on the item lies in
`[0, 1]`; it is never negative. -/
theorem item_confidence_unit_interval (lp dv up am qty : String) (fb : Bool) :
    0 ≤ item_confidence lp dv up am qty fb ∧ item_confidence lp dv up am qty fb ≤ 1 := by
  obtain ⟨h0, h1⟩ := validate_prices_confidence_mem lp dv up am qty
  unfold item_confidence
  apply pyRound2_bounds
  · exact le_max_left 0 _
  · apply max_le (by norm_num)
    have hpen : (0 : ℚ) ≤ (if fb then (1 : ℚ)/5 else 0) := by cases fb <;> norm_num
    linarith

/-- Claim C6, counterexample: at quantity 0 and unit price 5 the amount
`0 * 5` equals the product exactly, yet Pass B returns Indeterminate
(rule 1 fires first), not Pass as the claim asserts for every pair. -/
theorem math_check_zero_product_not_pass :
    (mathCheck 0 5 (0 * 5) defaultTolerance).1 = Verdict.indeterminate ∧
      Verdict.indeterminate ≠ Verdict.pass := by
  constructor
  · norm_num [mathCheck]
  · decide

/-- Claim C6, amended: for every pair of decimals `q` and `u` whose
product is nonzero, Pass B on an item with `amount = q * u` exactly
yields the Pass verdict with the perfect-match message (when
`q * u = 0` the zero-amount rule fires first and gives Indeterminate). -/
theorem math_check_exact_product_pass (qty price tol : ℚ) (h : qty * price ≠ 0) :
    mathCheck qty price (qty * price) tol = (.pass, .perfect) := by
  unfold mathCheck
  rw [if_neg (fun hc => h hc.2), sub_self]
  rw [if_pos (by norm_num [rabs])]

theorem math_check_exact_product_pass_witness :
    mathCheck 2 3 (2 * 3) 5 = (.pass, .perfect) :=
  math_check_exact_product_pass 2 3 5 (by norm_num)

/-- Claim C7: on an item whose four price fields parse as numbers (as
all fallback-produced fields do), the final confidence with the
fallback penalty is strictly lower than the final confidence of the
identical structured-field item. -/
theorem fallback_confidence_strictly_lower (lp dv up am qty : String)
    (h1 : (parseField lp).isSome = true) (h2 : (parseField dv).isSome = true)
    (h3 : (parseField up).isSome = true) (h4 : (parseField am).isSome = true) :
    item_confidence lp dv up am qty true < item_confidence lp dv up am qty false := by
  obtain ⟨l, hl⟩ := Option.isSome_iff_exists.mp h1
  obtain ⟨d, hd⟩ := Option.isSome_iff_exists.mp h2
  obtain ⟨u, hu⟩ := Option.isSome_iff_exists.mp h3
  obtain ⟨a, ha⟩ := Option.isSome_iff_exists.mp h4
  unfold item_confidence
  simp only [validate_prices, hl, hd, hu, ha]
  rcases validateCore_confidence_cases l d u a (qtyVal qty) with h | h | h | h <;>
    rw [h] <;>
    norm_num [pyRound2, roundHalfEven, ratFloor_eq_intFloor, max_def, min_def]

theorem fallback_confidence_strictly_lower_witness :
    item_confidence "250" "80" "200" "8000" "40" true <
      item_confidence "250" "80" "200" "8000" "40" false :=
  fallback_confidence_strictly_lower "250" "80" "200" "8000" "40"
    (by decide) (by decide) (by decide) (by decide)

/-- Claim C8: the OCR-aware cleaner is total — its output always parses
as a number so callers always get a usable value — and the concrete
examples hold: `"1,200"` gives 1200, `"$500"` gives 500, the empty
string gives 0, and `"O0L"` is corrected to the parseable digit string
`"001"` (value 1). -/
theorem clean_money_total_and_examples :
    (∀ s : String, (pyFloat (clean_money s).toList).isSome = true) ∧
      cleanMoneyVal "1,200" = 1200 ∧ cleanMoneyVal "$500" = 500 ∧ cleanMoneyVal "" = 0 ∧
      clean_money "O0L" = "001" ∧ cleanMoneyVal "O0L" = 1 :=
  ⟨clean_money_output_parses, by decide, by decide, by decide, by decide, by decide⟩

/-- Claim C9: Pass B replaces exactly the quantity, unit-price and
amount fields by their cleaned numeric values, adds exactly the two
audit fields (verdict and message), and leaves every other
pre-existing field unchanged; after the pass the three fields are
numeric. -/
theorem math_check_item_frame (tol : ℚ) (item : Item) :
    (∀ k : String, k ≠ "採購數" → k ≠ "單價" → k ≠ "金額" →
      k ≠ "_稽核狀態" → k ≠ "_稽核訊息" →
      getVal k (perform_math_check_item tol item) = getVal k item) ∧
    getVal "採購數" (perform_math_check_item tol item) =
      some (.num (clean_num (getVal "採購數" item))) ∧
    getVal "單價" (perform_math_check_item tol item) =
      some (.num (clean_num (getVal "單價" item))) ∧
    getVal "金額" (perform_math_check_item tol item) =
      some (.num (clean_num (getVal "金額" item))) ∧
    getVal "_稽核狀態" (perform_math_check_item tol item) =
      some (.status (mathCheck (clean_num (getVal "採購數" item))
        (clean_num (getVal "單價" item)) (clean_num (getVal "金額" item)) tol).1) ∧
    getVal "_稽核訊息" (perform_math_check_item tol item) =
      some (.audit (mathCheck (clean_num (getVal "採購數" item))
        (clean_num (getVal "單價" item)) (clean_num (getVal "金額" item)) tol).2) := by
  unfold perform_math_check_item
  refine ⟨fun k hk1 hk2 hk3 hk4 hk5 => ?_, ?_, ?_, ?_, ?_, ?_⟩
  · rw [getVal_setKey_ne k "_稽核訊息" _ (Ne.symm hk5),
        getVal_setKey_ne k "_稽核狀態" _ (Ne.symm hk4),
        getVal_setKey_ne k "金額" _ (Ne.symm hk3),
        getVal_setKey_ne k "單價" _ (Ne.symm hk2),
        getVal_setKey_ne k "採購數" _ (Ne.symm hk1)]
  · rw [getVal_setKey_ne "採購數" "_稽核訊息" _ (by decide),
        getVal_setKey_ne "採購數" "_稽核狀態" _ (by decide),
        getVal_setKey_ne "採購數" "金額" _ (by decide),
        getVal_setKey_ne "採購數" "單價" _ (by decide),
        getVal_setKey_same]
  · rw [getVal_setKey_ne "單價" "_稽核訊息" _ (by decide),
        getVal_setKey_ne "單價" "_稽核狀態" _ (by decide),
        getVal_setKey_ne "單價" "金額" _ (by decide),
        getVal_setKey_same]
  · rw [getVal_setKey_ne "金額" "_稽核訊息" _ (by decide),
        getVal_setKey_ne "金額" "_稽核狀態" _ (by decide),
        getVal_setKey_same]
  · rw [getVal_setKey_ne "_稽核狀態" "_稽核訊息" _ (by decide),
        getVal_setKey_same]
  · rw [getVal_setKey_same]

theorem math_check_item_frame_witness :
    getVal "品名" (perform_math_check_item 5
        [("品名", PyVal.str "PVC"), ("採購數", PyVal.str "2")]) =
      getVal "品名" [("品名", PyVal.str "PVC"), ("採購數", PyVal.str "2")] :=
  (math_check_item_frame 5 [("品名", PyVal.str "PVC"), ("採購數", PyVal.str "2")]).1
    "品名" (by decide) (by decide) (by decide) (by decide) (by decide)

/-- Claim C10: when exactly one nonzero token survives cleaning, no
branch of the allocation fires and all four fields come back empty, for
any quantity. -/
theorem single_token_allocation_empty (raw qty : String)
    (h : (((tokenize raw).map clean_money).filter (fun t => t ≠ "0")).length = 1) :
    allocate_prices_smart raw qty = emptyAlloc := by
  unfold allocate_prices_smart
  cases hpl : ((tokenize raw).map clean_money).filter (fun t => t ≠ "0") with
  | nil => rw [hpl] at h; simp at h
  | cons t rest =>
      rw [hpl] at h
      cases rest with
      | cons t2 r2 => simp at h
      | nil =>
          rw [if_neg (by simp)]
          have hparse : (pyFloat t.toList).isSome = true := by
            have htm : t ∈ ((tokenize raw).map clean_money).filter (fun t => t ≠ "0") := by
              rw [hpl]; exact List.mem_cons_self t []
            have htm2 : t ∈ (tokenize raw).map clean_money := List.mem_of_mem_filter htm
            obtain ⟨s0, _, he⟩ := List.mem_map.mp htm2
            rw [← he]
            exact clean_money_output_parses s0
          obtain ⟨qv, hqv⟩ := Option.isSome_iff_exists.mp hparse
          simp only [parseAll, hqv]
          exact allocateCore_singleton qv (qtyVal qty)

theorem single_token_allocation_empty_witness :
    allocate_prices_smart "5 0 abc" "7" = emptyAlloc :=
  single_token_allocation_empty "5 0 abc" "7" (by decide)

end OCRProc
